import Mathlib

/-!
Shallow embedding of the `mempool` crate (src/lib.rs): a thread-safe memory
pool built from a spinlock-protected stack of spare values.  The Rust code is
translated into pure Lean with explicit state passing:

* `SpinLock` is the atomic-boolean spinlock.  In a sequential execution
  `lock` returns exactly when the lock has been acquired, so it is modelled
  as the function that yields the locked state; theorems that need the call
  to terminate carry the hypothesis that the lock was free.
* `Stack T` is the `Stack` struct: a `Vec<T>` (a `List T` whose last element
  is the top, matching `Vec::push`/`Vec::pop`) together with its spinlock.
* The pool `Pool(Arc<_Pool>)` is split into the shared interior `_Pool`
  (the stack plus the creation closure's internal state) and the handle
  `Pool`, which holds the address of the `Arc` allocation.  A `Heap` maps
  addresses to interiors; `Pool::clone` clones only the `Arc`, i.e. copies
  the address and leaves every interior untouched.
* The creation closure `CreateFn<T> = Box<Fn() -> T>` may own interior
  mutable state (the tests capture an `AtomicUsize`), so it is modelled as a
  pure function `create : σ → T × σ` acting on a state recorded in the
  interior; invoking the constructor once advances that state once.
* `Guard` and `RefGuard` hold an `Option T` slot plus their pool handle.
  `Option::take().unwrap()` and `as_ref().unwrap()` can panic, so the
  operations that contain them return `Option`: `none` is a panic.
-/

/-- The `SpinLock` struct: an atomic boolean. -/
structure SpinLock where
  locked : Bool
deriving Repr, DecidableEq

/-- The state of `SpinLock::new()`. -/
def SpinLock.new : SpinLock := { locked := false }

/-- Sequential model of `SpinLock::lock`: spins until the lock is free, then
owns it.  The call terminates (in a single-thread execution) exactly when the
lock was free; the state it returns then is the locked one. -/
def SpinLock.lock (_ : SpinLock) : SpinLock := { locked := true }

/-- Model of `SpinLock::unlock`: store `false`. -/
def SpinLock.unlock (_ : SpinLock) : SpinLock := { locked := false }

/-- The `Stack` struct: an `UnsafeCell<Vec<T>>` plus a `SpinLock`.  The
`Vec` is a `List` in push order, so its last element is the top. -/
structure Stack (T : Type) where
  stack : List T
  lock : SpinLock
deriving Repr, DecidableEq

/-- The state of `Stack::new()`. -/
def Stack.new {T : Type} : Stack T := { stack := [], lock := SpinLock.new }

/-- Model of `Stack::push`: lock, `Vec::push` (append at the end), unlock. -/
def Stack.push {T : Type} (s : Stack T) (data : T) : Stack T :=
  let l := s.lock.lock
  { stack := s.stack ++ [data], lock := l.unlock }

/-- Model of `Stack::pop`: lock, `Vec::pop` (remove and return the last
element, `none` on an empty vector), unlock, return the popped value. -/
def Stack.pop {T : Type} (s : Stack T) : Option T × Stack T :=
  let l := s.lock.lock
  let data := s.stack.getLast?
  (data, { stack := s.stack.dropLast, lock := l.unlock })

/-- The shared interior `_Pool`: the stack of spares plus the internal state
of the creation closure (`create : σ → T × σ` is passed separately). -/
structure _Pool (σ T : Type) where
  stack : Stack T
  createState : σ
deriving Repr, DecidableEq

/-- The interior built by `Pool::new`: an empty stack and the closure's
initial state. -/
def _Pool.new {σ T : Type} (s0 : σ) : _Pool σ T :=
  { stack := Stack.new, createState := s0 }

/-- The `Pool` handle `Pool(Arc<_Pool>)`: it stores only the address of the
reference-counted allocation. -/
structure Pool where
  id : Nat
deriving Repr, DecidableEq

/-- A heap mapping `Arc` addresses to pool interiors. -/
def Heap (σ T : Type) : Type := Nat → _Pool σ T

/-- Overwrite the interior stored at one address. -/
def Heap.update {σ T : Type} (w : Heap σ T) (i : Nat) (pl : _Pool σ T) :
    Heap σ T :=
  fun j => if j = i then pl else w j

/-- Model of `impl Clone for Pool`: `Pool(self.0.clone())` clones only the
`Arc`, so the new handle carries the same address and no interior changes. -/
def Pool.clone (p : Pool) : Pool := { id := p.id }

/-- The `Guard` struct: an owned pool handle plus the optional value slot. -/
structure Guard (T : Type) where
  pool : Pool
  data : Option T
deriving Repr, DecidableEq

/-- The `RefGuard` struct: a borrowed pool handle (same address) plus the
optional value slot. -/
structure RefGuard (T : Type) where
  pool : Pool
  data : Option T
deriving Repr, DecidableEq

/-- Model of `Pool::get`: pop from the stack; on `None` invoke the creation
closure once; wrap the value in a `Guard` holding `self.clone()`. -/
def Pool.get {σ T : Type} (create : σ → T × σ) (p : Pool) (w : Heap σ T) :
    Guard T × Heap σ T :=
  let pl := w p.id
  match pl.stack.pop with
  | (none, st) =>
      let (v, s) := create pl.createState
      ({ pool := p.clone, data := some v },
       w.update p.id { stack := st, createState := s })
  | (some data, st) =>
      ({ pool := p.clone, data := some data },
       w.update p.id { stack := st, createState := pl.createState })

/-- Model of `Pool::get_ref`: same as `Pool::get` but the guard borrows the
pool (`pool: self`) instead of cloning it. -/
def Pool.get_ref {σ T : Type} (create : σ → T × σ) (p : Pool) (w : Heap σ T) :
    RefGuard T × Heap σ T :=
  let pl := w p.id
  match pl.stack.pop with
  | (none, st) =>
      let (v, s) := create pl.createState
      ({ pool := p, data := some v },
       w.update p.id { stack := st, createState := s })
  | (some data, st) =>
      ({ pool := p, data := some data },
       w.update p.id { stack := st, createState := pl.createState })

/-- Model of `Pool::put`: push the value onto the stack. -/
def Pool.put {σ T : Type} (p : Pool) (data : T) (w : Heap σ T) : Heap σ T :=
  let pl := w p.id
  w.update p.id { pl with stack := pl.stack.push data }

/-- Model of `impl Drop for Guard`: `self.data.take().unwrap()` then
`self.pool.put(data)`.  `none` is the panic of `unwrap` on an already
consumed slot; otherwise the slot is consumed and the value is put back. -/
def Guard.drop {σ T : Type} (g : Guard T) (w : Heap σ T) :
    Option (Guard T × Heap σ T) :=
  match g.data with
  | none => none
  | some data => some ({ pool := g.pool, data := none }, g.pool.put data w)

/-- Model of `impl Drop for RefGuard`: identical take-and-put. -/
def RefGuard.drop {σ T : Type} (g : RefGuard T) (w : Heap σ T) :
    Option (RefGuard T × Heap σ T) :=
  match g.data with
  | none => none
  | some data => some ({ pool := g.pool, data := none }, g.pool.put data w)

/-- Model of `impl Deref for Guard`: `self.data.as_ref().unwrap()`; `none`
is the panic. -/
def Guard.deref {T : Type} (g : Guard T) : Option T := g.data

/-- Model of `impl DerefMut for Guard`: `self.data.as_mut().unwrap()`. -/
def Guard.deref_mut {T : Type} (g : Guard T) : Option T := g.data

/-- Model of `impl Deref for RefGuard`. -/
def RefGuard.deref {T : Type} (g : RefGuard T) : Option T := g.data

/-- Model of `impl DerefMut for RefGuard`. -/
def RefGuard.deref_mut {T : Type} (g : RefGuard T) : Option T := g.data

/-- Model of `Pool::get` under a creation closure that may fail (a panic in
Rust, rendered as `Option`): the failure surfaces to the caller after the pop
has already committed and released the spinlock, so the popped stack state is
what the unwinding leaves behind. -/
def Pool.getOrPanic {σ T : Type} (create : σ → Option (T × σ)) (p : Pool)
    (w : Heap σ T) : Option (Guard T) × Heap σ T :=
  let pl := w p.id
  match pl.stack.pop with
  | (none, st) =>
      match create pl.createState with
      | none => (none, w.update p.id { stack := st, createState := pl.createState })
      | some (v, s) =>
          (some { pool := p.clone, data := some v },
           w.update p.id { stack := st, createState := s })
  | (some data, st) =>
      (some { pool := p.clone, data := some data },
       w.update p.id { stack := st, createState := pl.createState })

/-- The counting creation closure of the crate's tests: `Dummy(n)` where `n`
is a counter starting at 0 that increments on every call.  The value
`Dummy(n)` is represented by `n`, the closure state by the counter. -/
def dummyCreate : Nat → Nat × Nat := fun n => (n, n + 1)

/-- A pool handle at address 0. -/
def p0 : Pool := { id := 0 }

/-- The heap right after `Pool::new(dummy())`: every address holds a fresh
interior with an empty stack and the counter at 0. -/
def initHeap : Heap Nat Nat := fun _ => _Pool.new 0

/-- A heap whose pool at address 0 holds one spare value 5: used to
instantiate theorems at a non-empty stack. -/
def oneHeap : Heap Nat Nat :=
  fun _ => { stack := { stack := [5], lock := SpinLock.new }, createState := 0 }

/-- A creation closure that always fails (panics). -/
def failCreate : Nat → Option (Nat × Nat) := fun _ => none

/-- One client operation on the pool: acquire a guard via `Pool::get`, or
release (drop) the k-th outstanding guard. -/
inductive Op where
  | acquire : Op
  | release : Nat → Op
deriving Repr, DecidableEq

/-- A system state for a trace of operations against the pool at `p0` with
the counting constructor: the heap plus the outstanding (live) guards. -/
structure SysState where
  heap : Heap Nat Nat
  live : List (Guard Nat)

/-- The initial system state: fresh pool, no outstanding guards. -/
def initState : SysState := { heap := initHeap, live := [] }

/-- Execute one operation: `acquire` runs `Pool::get` and keeps the guard
live; `release k` drops the k-th live guard (a no-op when there is no such
guard, and when its slot is already consumed — which never happens on
reachable states). -/
def step (s : SysState) : Op → SysState
  | Op.acquire =>
      let (g, w) := Pool.get dummyCreate p0 s.heap
      { heap := w, live := g :: s.live }
  | Op.release k =>
      match s.live[k]? with
      | none => s
      | some g =>
          match g.drop s.heap with
          | none => s
          | some (_, w) => { heap := w, live := s.live.eraseIdx k }

/-- Run a whole sequence of operations from the initial state. -/
def run (ops : List Op) : SysState := ops.foldl step initState

/-- The values sitting in the pool's storage stack. -/
def stackVals (s : SysState) : List Nat := (s.heap p0.id).stack.stack

/-- The values held by the outstanding guards. -/
def liveVals (s : SysState) : List Nat := s.live.filterMap (fun g => g.data)

/-- The trace invariant: every value lives in exactly one place (the storage
stack and the live guards together hold pairwise-distinct values), every
value was produced by the constructor (it is below the counter), and every
live guard points back at the pool and still holds its value. -/
def PoolInv (s : SysState) : Prop :=
  (stackVals s ++ liveVals s).Nodup ∧
  (∀ v ∈ stackVals s ++ liveVals s, v < (s.heap p0.id).createState) ∧
  (∀ g ∈ s.live, g.pool = p0 ∧ g.data.isSome)

/-- The alternating single-thread workload of the reuse test: n rounds of
acquire immediately followed by release of the guard just acquired. -/
def altOps (n : Nat) : List Op :=
  (List.replicate n [Op.acquire, Op.release 0]).flatten

/-- The steady state the pool interior reaches after the first
acquire-then-release round of the alternating workload: one spare value
`Dummy(0)` and a counter of 1 (one constructor invocation so far). -/
def roundState : _Pool Nat Nat :=
  { stack := { stack := [0], lock := SpinLock.new }, createState := 1 }

/-- Modelled from the spec: the thread-affine pool of section 4.4 is not
present under src/ (only the general pool is); this follows the spec's
state machine.  `owner` is the atomic owner-identity slot (0 = unowned,
nonzero = the thread identity that won the one-time compare-and-swap),
`ownerVal` the pre-built fast-path value, `fallback` the lock-guarded
mapping from thread identity to that thread's boxed value. -/
structure AffinePool (σ T : Type) where
  owner : Nat
  ownerVal : T
  fallback : List (Nat × T)
  createState : σ
deriving Repr, DecidableEq

/-- Modelled from the spec: thread-affine `get` called by the thread with
identity `tid` (thread identities are nonzero).  Unowned pool: the caller
wins the compare-and-swap from 0 to `tid` and is served the owner slot's
pre-built value; the owner is served that value directly thereafter; any
other thread takes the fallback path: look up its identity under the lock,
constructing, inserting and returning a boxed value on first access. -/
def AffinePool.get {σ T : Type} (create : σ → T × σ) (tid : Nat)
    (ap : AffinePool σ T) : T × AffinePool σ T :=
  if ap.owner = 0 then
    (ap.ownerVal, { ap with owner := tid })
  else if ap.owner = tid then
    (ap.ownerVal, ap)
  else
    match ap.fallback.lookup tid with
    | some v => (v, ap)
    | none =>
        let (v, s) := create ap.createState
        (v, { ap with fallback := (tid, v) :: ap.fallback, createState := s })

theorem Heap.update_self {σ T : Type} (w : Heap σ T) (i : Nat) (pl : _Pool σ T) :
    w.update i pl i = pl := by
  simp [Heap.update]

theorem Heap.update_ne {σ T : Type} (w : Heap σ T) (i j : Nat) (pl : _Pool σ T)
    (h : j ≠ i) : w.update i pl j = w j := by
  simp [Heap.update, h]

theorem Pool.put_at {σ T : Type} (p : Pool) (v : T) (w : Heap σ T) :
    (Pool.put p v w) p.id =
      { stack := { stack := (w p.id).stack.stack ++ [v], lock := SpinLock.new },
        createState := (w p.id).createState } := by
  simp [Pool.put, Stack.push, Heap.update_self, SpinLock.lock, SpinLock.unlock, SpinLock.new]

theorem Pool.get_empty {σ T : Type} (create : σ → T × σ) (p : Pool) (w : Heap σ T)
    (h : (w p.id).stack.stack = []) :
    Pool.get create p w =
      ({ pool := p.clone, data := some (create (w p.id).createState).1 },
       w.update p.id { stack := { stack := [], lock := SpinLock.new },
                       createState := (create (w p.id).createState).2 }) := by
  simp [Pool.get, Stack.pop, h, SpinLock.lock, SpinLock.unlock, SpinLock.new]

theorem Pool.get_spare {σ T : Type} (create : σ → T × σ) (p : Pool) (w : Heap σ T)
    (l : List T) (v : T) (h : (w p.id).stack.stack = l ++ [v]) :
    Pool.get create p w =
      ({ pool := p.clone, data := some v },
       w.update p.id { stack := { stack := l, lock := SpinLock.new },
                       createState := (w p.id).createState }) := by
  simp [Pool.get, Stack.pop, h, SpinLock.lock, SpinLock.unlock, SpinLock.new,
    List.getLast?_concat, List.dropLast_concat]

theorem Pool.get_ref_empty {σ T : Type} (create : σ → T × σ) (p : Pool) (w : Heap σ T)
    (h : (w p.id).stack.stack = []) :
    Pool.get_ref create p w =
      ({ pool := p, data := some (create (w p.id).createState).1 },
       w.update p.id { stack := { stack := [], lock := SpinLock.new },
                       createState := (create (w p.id).createState).2 }) := by
  simp [Pool.get_ref, Stack.pop, h, SpinLock.lock, SpinLock.unlock, SpinLock.new]

theorem Pool.get_ref_spare {σ T : Type} (create : σ → T × σ) (p : Pool) (w : Heap σ T)
    (l : List T) (v : T) (h : (w p.id).stack.stack = l ++ [v]) :
    Pool.get_ref create p w =
      ({ pool := p, data := some v },
       w.update p.id { stack := { stack := l, lock := SpinLock.new },
                       createState := (w p.id).createState }) := by
  simp [Pool.get_ref, Stack.pop, h, SpinLock.lock, SpinLock.unlock, SpinLock.new,
    List.getLast?_concat, List.dropLast_concat]

/-- Claim C1: for every pool state, the general-pool acquire operations
`Pool::get` and `Pool::get_ref` pop a value from the storage stack; if the
stack is empty they invoke the constructor exactly once (the closure state
advances by exactly one application) to build a fresh value; in either case
the returned guard wraps that value and references this pool (`get` stores
`self.clone()`, the same address; `get_ref` stores `self`), and the
constructor is not invoked when the stack was non-empty (the closure state
is unchanged). -/
theorem get_pops_or_creates {σ T : Type} (create : σ → T × σ) (p : Pool)
    (w : Heap σ T) :
    ((w p.id).stack.stack = [] →
      Pool.get create p w =
        ({ pool := p.clone, data := some (create (w p.id).createState).1 },
         w.update p.id { stack := { stack := [], lock := SpinLock.new },
                         createState := (create (w p.id).createState).2 })) ∧
    (∀ l v, (w p.id).stack.stack = l ++ [v] →
      Pool.get create p w =
        ({ pool := p.clone, data := some v },
         w.update p.id { stack := { stack := l, lock := SpinLock.new },
                         createState := (w p.id).createState })) ∧
    ((w p.id).stack.stack = [] →
      Pool.get_ref create p w =
        ({ pool := p, data := some (create (w p.id).createState).1 },
         w.update p.id { stack := { stack := [], lock := SpinLock.new },
                         createState := (create (w p.id).createState).2 })) ∧
    (∀ l v, (w p.id).stack.stack = l ++ [v] →
      Pool.get_ref create p w =
        ({ pool := p, data := some v },
         w.update p.id { stack := { stack := l, lock := SpinLock.new },
                         createState := (w p.id).createState })) ∧
    (Pool.get create p w).1.pool.id = p.id ∧
    (Pool.get_ref create p w).1.pool = p := by
  refine ⟨fun h => Pool.get_empty create p w h,
          fun l v h => Pool.get_spare create p w l v h,
          fun h => Pool.get_ref_empty create p w h,
          fun l v h => Pool.get_ref_spare create p w l v h, ?_, ?_⟩
  · rcases (w p.id).stack.stack.eq_nil_or_concat with h | ⟨l, v, h⟩
    · rw [Pool.get_empty create p w h]; rfl
    · rw [Pool.get_spare create p w l v (by simpa using h)]; rfl
  · rcases (w p.id).stack.stack.eq_nil_or_concat with h | ⟨l, v, h⟩
    · rw [Pool.get_ref_empty create p w h]
    · rw [Pool.get_ref_spare create p w l v (by simpa using h)]

theorem foldl_put_stack {σ T : Type} (p : Pool) (w : Heap σ T) (vs : List T) :
    ((vs.foldl (fun w2 u => Pool.put p u w2) w) p.id).stack.stack
      = (w p.id).stack.stack ++ vs := by
  induction vs generalizing w with
  | nil => simp
  | cons a as ih => simp [List.foldl_cons, ih, Pool.put_at]

/-- Claim C4: for every stack state, `push` inserts the value and `pop`
removes and returns the most recently pushed value (LIFO order), returning
`none` if and only if the stack holds no values; consequently after
releasing several values into the pool, the next acquire reuses the most
recently released one. -/
theorem stack_lifo {T : Type} (s : Stack T) (v : T) :
    ((s.push v).pop = (some v, { stack := s.stack, lock := SpinLock.new })) ∧
    ((s.pop).1 = none ↔ s.stack = []) ∧
    (∀ (σ : Type) (create : σ → T × σ) (p : Pool) (w : Heap σ T) (vs : List T),
      (Pool.get create p
        ((vs ++ [v]).foldl (fun w2 u => Pool.put p u w2) w)).1.data = some v) := by
  refine ⟨?_, ?_, ?_⟩
  · simp [Stack.push, Stack.pop, SpinLock.lock, SpinLock.unlock, SpinLock.new,
      List.getLast?_concat, List.dropLast_concat]
  · simp [Stack.pop, List.getLast?_eq_none_iff]
  · intro σ create p w vs
    have h := foldl_put_stack p w (vs ++ [v])
    rw [Pool.get_spare create p _ ((w p.id).stack.stack ++ vs) v
      (by rw [h, List.append_assoc])]

/-- Claim C2: for every guard created by acquire, releasing it (the drop
glue, the only release path) moves the held value out of the guard and hands
it to `Pool::put` exactly once — the storage stack gains exactly that one
value, never zero and never two; double-release is prevented because the
guard's value slot is consumed on first release, so a second drop of the
consumed guard performs no put (it would be the `unwrap` panic, not a
double return).  Both `Guard` and `RefGuard` are covered. -/
theorem guard_release_puts_once {σ T : Type} (g : Guard T) (r : RefGuard T)
    (w : Heap σ T) (v v' : T) (hg : g.data = some v) (hr : r.data = some v') :
    Guard.drop g w = some ({ pool := g.pool, data := none }, Pool.put g.pool v w) ∧
    ((Pool.put g.pool v w) g.pool.id).stack.stack = (w g.pool.id).stack.stack ++ [v] ∧
    RefGuard.drop r w = some ({ pool := r.pool, data := none }, Pool.put r.pool v' w) ∧
    ((Pool.put r.pool v' w) r.pool.id).stack.stack = (w r.pool.id).stack.stack ++ [v'] ∧
    (∀ w2 : Heap σ T, Guard.drop { pool := g.pool, data := none } w2 = none) ∧
    (∀ w2 : Heap σ T, RefGuard.drop { pool := r.pool, data := none } w2 = none) := by
  refine ⟨?_, ?_, ?_, ?_, fun w2 => rfl, fun w2 => rfl⟩
  · simp [Guard.drop, hg]
  · rw [Pool.put_at]
  · simp [RefGuard.drop, hr]
  · rw [Pool.put_at]

/-- Witness for C2 at concrete guards holding 7 and 8 over the fresh heap. -/
theorem guard_release_puts_once_witness :
    Guard.drop { pool := p0, data := some 7 } initHeap
        = some ({ pool := p0, data := none }, Pool.put p0 7 initHeap) ∧
    ((Pool.put p0 7 initHeap) p0.id).stack.stack = (initHeap p0.id).stack.stack ++ [7] ∧
    RefGuard.drop { pool := p0, data := some 8 } initHeap
        = some ({ pool := p0, data := none }, Pool.put p0 8 initHeap) ∧
    ((Pool.put p0 8 initHeap) p0.id).stack.stack = (initHeap p0.id).stack.stack ++ [8] ∧
    (∀ w2 : Heap Nat Nat, Guard.drop { pool := p0, data := none } w2 = none) ∧
    (∀ w2 : Heap Nat Nat, RefGuard.drop { pool := p0, data := none } w2 = none) :=
  guard_release_puts_once { pool := p0, data := some 7 } { pool := p0, data := some 8 }
    initHeap 7 8 rfl rfl

/-- Claim C6: with the counting constructor `Dummy(n)`, the first acquire
observes `Dummy(0)`; after releasing it, the next acquire observes
`Dummy(0)` again (reused, not `Dummy(1)`); acquiring a second time while
the first guard is still held observes `Dummy(1)`, freshly constructed,
while the first guard (whose slot the second acquire does not touch) still
holds `Dummy(0)`. -/
theorem dummy_scenario :
    (Pool.get dummyCreate p0 initHeap).1.data = some 0 ∧
    ((Guard.drop (Pool.get dummyCreate p0 initHeap).1
        (Pool.get dummyCreate p0 initHeap).2).map
      (fun res => (Pool.get dummyCreate p0 res.2).1.data)) = some (some 0) ∧
    (Pool.get dummyCreate p0 (Pool.get dummyCreate p0 initHeap).2).1.data = some 1 := by
  refine ⟨rfl, rfl, rfl⟩

/-- Claim C9: cloning a `Pool` clones only the reference-counted interior:
the clone carries the same address, so it shares the same storage stack and
constructor as the original — `get` and `put` through the clone are the very
same operations as through the original, a value released through one handle
is reused by the next acquire through the other, and cloning constructs or
duplicates no spare values (it does not touch any interior at all). -/
theorem clone_shares_interior {σ T : Type} (p : Pool) (create : σ → T × σ)
    (w : Heap σ T) (v : T) :
    Pool.clone p = { id := p.id } ∧
    (∀ w2 : Heap σ T, Pool.get create (Pool.clone p) w2 = Pool.get create p w2) ∧
    (∀ w2 : Heap σ T, Pool.put (Pool.clone p) v w2 = Pool.put p v w2) ∧
    (Pool.get create p (Pool.put (Pool.clone p) v w)).1.data = some v := by
  refine ⟨rfl, fun w2 => rfl, fun w2 => rfl, ?_⟩
  rw [Pool.get_spare create p _ ((w p.id).stack.stack) v
    (by simp [Pool.put, Pool.clone, Stack.push, Heap.update,
      SpinLock.lock, SpinLock.unlock])]

/-- Witness for C1: both branches instantiated, at the fresh pool and at a
pool holding one spare. -/
theorem get_pops_or_creates_witness :
    (Pool.get dummyCreate p0 initHeap =
      ({ pool := p0.clone, data := some (dummyCreate (initHeap p0.id).createState).1 },
       Heap.update initHeap p0.id
         { stack := { stack := [], lock := SpinLock.new },
           createState := (dummyCreate (initHeap p0.id).createState).2 })) ∧
    (Pool.get dummyCreate p0 oneHeap =
      ({ pool := p0.clone, data := some 5 },
       Heap.update oneHeap p0.id
         { stack := { stack := [], lock := SpinLock.new },
           createState := (oneHeap p0.id).createState })) :=
  ⟨(get_pops_or_creates dummyCreate p0 initHeap).1 rfl,
   (get_pops_or_creates dummyCreate p0 oneHeap).2.1 [] 5 rfl⟩

/-- Claim C7: if the constructor fails during an acquire on an empty pool,
the failure propagates synchronously to the caller of acquire (`none` is
returned), and the pool's internal state is unchanged by the failed call:
the storage stack holds the same values as before, the closure state is
unchanged, every other pool is untouched, and the spinlock is not left in a
held state — construction happens after the pop's critical section has
already released the lock. -/
theorem failed_create_leaves_pool_unchanged {σ T : Type}
    (create : σ → Option (T × σ)) (p : Pool) (w : Heap σ T)
    (hempty : (w p.id).stack.stack = [])
    (_hlock : (w p.id).stack.lock.locked = false)
    (hfail : create (w p.id).createState = none) :
    (Pool.getOrPanic create p w).1 = none ∧
    ((Pool.getOrPanic create p w).2 p.id).stack.stack = (w p.id).stack.stack ∧
    ((Pool.getOrPanic create p w).2 p.id).stack.lock.locked = false ∧
    ((Pool.getOrPanic create p w).2 p.id).createState = (w p.id).createState ∧
    (∀ j, j ≠ p.id → (Pool.getOrPanic create p w).2 j = w j) := by
  refine ⟨?_, ?_, ?_, ?_, ?_⟩ <;>
    simp [Pool.getOrPanic, Stack.pop, hempty, hfail, SpinLock.lock, SpinLock.unlock,
      Heap.update, SpinLock.new]
  intro j hj
  simp [hj]

/-- Witness for C7: the always-failing constructor on the fresh pool. -/
theorem failed_create_leaves_pool_unchanged_witness :
    (Pool.getOrPanic failCreate p0 initHeap).1 = none ∧
    ((Pool.getOrPanic failCreate p0 initHeap).2 p0.id).stack.stack
        = (initHeap p0.id).stack.stack ∧
    ((Pool.getOrPanic failCreate p0 initHeap).2 p0.id).stack.lock.locked = false ∧
    ((Pool.getOrPanic failCreate p0 initHeap).2 p0.id).createState
        = (initHeap p0.id).createState ∧
    (∀ j, j ≠ p0.id → (Pool.getOrPanic failCreate p0 initHeap).2 j = initHeap j) :=
  failed_create_leaves_pool_unchanged failCreate p0 initHeap rfl rfl rfl

theorem poolInv_init : PoolInv initState := by
  refine ⟨?_, ?_, ?_⟩ <;>
    simp [PoolInv, stackVals, liveVals, initState, initHeap, _Pool.new, Stack.new]

theorem poolInv_acquire (s : SysState) (hs : PoolInv s) :
    PoolInv (step s Op.acquire) := by
  obtain ⟨hnd, hlt, hg⟩ := hs
  rcases (s.heap p0.id).stack.stack.eq_nil_or_concat with hempty | ⟨l, v, hcat⟩
  · have hget := Pool.get_empty dummyCreate p0 s.heap hempty
    refine ⟨?_, ?_, ?_⟩
    · simp only [step, hget, stackVals, liveVals, Heap.update_self, List.filterMap_cons]
      simp only [stackVals, liveVals] at hnd
      rw [hempty] at hnd
      simp only [List.nil_append] at hnd ⊢
      refine List.Nodup.cons ?_ hnd
      intro hmem
      have hc : (dummyCreate (s.heap p0.id).createState).1 ∈ liveVals s := hmem
      have := hlt _ (List.mem_append_right _ hc)
      simp [dummyCreate] at this
    · intro v hv
      simp only [step, hget, stackVals, liveVals, Heap.update_self,
        List.filterMap_cons, List.nil_append, dummyCreate] at hv ⊢
      rcases List.mem_cons.mp hv with rfl | hv2
      · omega
      · have := hlt v (List.mem_append_right _ (show v ∈ liveVals s from hv2))
        omega
    · intro g hgmem
      simp only [step, hget] at hgmem
      rcases List.mem_cons.mp hgmem with rfl | hmem2
      · exact ⟨rfl, rfl⟩
      · exact hg g hmem2
  · have hcat' : (s.heap p0.id).stack.stack = l ++ [v] := by simpa using hcat
    have hget := Pool.get_spare dummyCreate p0 s.heap l v hcat'
    have hallEq : l ++ (v :: liveVals s) = stackVals s ++ liveVals s := by
      rw [stackVals, hcat', List.append_assoc, List.singleton_append]
    refine ⟨?_, ?_, ?_⟩
    · simp only [step, hget, stackVals, liveVals, Heap.update_self, List.filterMap_cons]
      show (l ++ (v :: liveVals s)).Nodup
      rw [hallEq]
      exact hnd
    · intro u hu
      simp only [step, hget, stackVals, liveVals, Heap.update_self,
        List.filterMap_cons] at hu ⊢
      have hu2 : u ∈ stackVals s ++ liveVals s := hallEq ▸ hu
      exact hlt u hu2
    · intro g hgmem
      simp only [step, hget] at hgmem
      rcases List.mem_cons.mp hgmem with rfl | hmem2
      · exact ⟨rfl, rfl⟩
      · exact hg g hmem2

theorem poolInv_release (s : SysState) (hs : PoolInv s) (k : Nat) :
    PoolInv (step s (Op.release k)) := by
  obtain ⟨hnd, hlt, hg⟩ := hs
  cases hgk : s.live[k]? with
  | none => simp only [step, hgk]; exact ⟨hnd, hlt, hg⟩
  | some g =>
    obtain ⟨hk, hkeq⟩ := List.getElem?_eq_some.mp hgk
    have hmem : g ∈ s.live := hkeq ▸ s.live.getElem_mem hk
    obtain ⟨hp, hd⟩ := hg g hmem
    obtain ⟨v, hv⟩ := Option.isSome_iff_exists.mp hd
    have hdrop : Guard.drop g s.heap
        = some ({ pool := g.pool, data := none }, Pool.put g.pool v s.heap) := by
      simp [Guard.drop, hv]
    have hsplit : s.live = s.live.take k ++ g :: s.live.drop (k + 1) := by
      conv_lhs => rw [← List.take_append_drop k s.live]
      rw [List.drop_eq_getElem_cons hk, hkeq]
    have hlive : liveVals s
        = (s.live.take k).filterMap (fun g2 => g2.data)
          ++ v :: (s.live.drop (k + 1)).filterMap (fun g2 => g2.data) := by
      conv_lhs => rw [liveVals, hsplit]
      simp [List.filterMap_append, hv]
    have herase : (s.live.eraseIdx k).filterMap (fun g2 => g2.data)
        = (s.live.take k).filterMap (fun g2 => g2.data)
          ++ (s.live.drop (k + 1)).filterMap (fun g2 => g2.data) := by
      rw [List.eraseIdx_eq_take_drop_succ, List.filterMap_append]
    have hput : (Pool.put g.pool v s.heap) p0.id
        = { stack := { stack := (s.heap p0.id).stack.stack ++ [v], lock := SpinLock.new },
            createState := (s.heap p0.id).createState } := by
      rw [hp]; exact Pool.put_at p0 v s.heap
    have hperm : List.Perm
        ((stackVals s ++ [v])
          ++ ((s.live.take k).filterMap (fun g2 => g2.data)
              ++ (s.live.drop (k + 1)).filterMap (fun g2 => g2.data)))
        (stackVals s ++ liveVals s) := by
      rw [hlive, List.append_assoc, List.singleton_append]
      exact List.Perm.append_left _ List.perm_middle.symm
    refine ⟨?_, ?_, ?_⟩
    · simp only [step, hgk, hdrop, stackVals, liveVals, hput, herase]
      exact hperm.symm.nodup hnd
    · intro u hu
      simp only [step, hgk, hdrop, stackVals, liveVals, hput, herase] at hu ⊢
      exact hlt u (hperm.mem_iff.mp hu)
    · intro g2 hg2
      simp only [step, hgk, hdrop] at hg2
      exact hg g2 ((List.eraseIdx_sublist s.live k).subset hg2)

theorem poolInv_step (s : SysState) (hs : PoolInv s) (op : Op) :
    PoolInv (step s op) := by
  cases op with
  | acquire => exact poolInv_acquire s hs
  | release k => exact poolInv_release s hs k

theorem poolInv_run (ops : List Op) : PoolInv (run ops) := by
  suffices h : ∀ s : SysState, PoolInv s → PoolInv (ops.foldl step s) from
    h initState poolInv_init
  induction ops with
  | nil => exact fun s hs => hs
  | cons op rest ih => exact fun s hs => ih (step s op) (poolInv_step s hs op)

/-- Claim C3: for every sequence of acquire and release operations, a value
currently held by an outstanding guard is never simultaneously present in
the pool's storage stack, and no value is held by two live guards at once —
each value has at most one active borrower.  Values are identified by their
construction index (the tests' `Dummy(n)`).  Since every value handed out by
an acquisition with no intervening release is held by a live guard, the
distinctness of the live guards' values makes all such values pairwise
distinct. -/
theorem values_never_aliased (ops : List Op) :
    (∀ g ∈ (run ops).live, ∀ v, g.data = some v → v ∉ stackVals (run ops)) ∧
    (liveVals (run ops)).Nodup ∧ (stackVals (run ops)).Nodup := by
  obtain ⟨hnd, _, _⟩ := poolInv_run ops
  rw [List.nodup_append] at hnd
  obtain ⟨h1, h2, hdisj⟩ := hnd
  refine ⟨?_, h2, h1⟩
  intro g hgmem v hv hvstack
  exact hdisj hvstack (List.mem_filterMap.mpr ⟨g, hgmem, hv⟩)

/-- Witness for C3: after two acquisitions with no releases, the second
guard's value 1 is not in storage and the live values are distinct. -/
theorem values_never_aliased_witness :
    (1 : Nat) ∉ stackVals (run [Op.acquire, Op.acquire]) ∧
    (liveVals (run [Op.acquire, Op.acquire])).Nodup ∧
    (stackVals (run [Op.acquire, Op.acquire])).Nodup :=
  ⟨(values_never_aliased [Op.acquire, Op.acquire]).1
      { pool := p0.clone, data := some 1 } (by decide) 1 rfl,
   (values_never_aliased [Op.acquire, Op.acquire]).2.1,
   (values_never_aliased [Op.acquire, Op.acquire]).2.2⟩

/-- Claim C10: every guard produced by acquire has its optional value slot
filled, and it stays filled until the guard is dropped (in every reachable
trace state all live guards hold a value), so the `unwrap` calls inside
`deref`, `deref_mut` and `drop` can never panic: dereferencing a live guard
always succeeds and the drop glue always finds a value to return. -/
theorem live_guard_slot_is_some {σ T : Type} (create : σ → T × σ) (p : Pool)
    (w : Heap σ T) :
    (Pool.get create p w).1.data.isSome ∧
    (Pool.get_ref create p w).1.data.isSome ∧
    (∀ g : Guard T, g.data.isSome →
      g.deref.isSome ∧ g.deref_mut.isSome ∧
        ∀ w2 : Heap σ T, (Guard.drop g w2).isSome) ∧
    (∀ r : RefGuard T, r.data.isSome →
      r.deref.isSome ∧ r.deref_mut.isSome ∧
        ∀ w2 : Heap σ T, (RefGuard.drop r w2).isSome) ∧
    (∀ ops : List Op, ∀ g ∈ (run ops).live, g.data.isSome) := by
  refine ⟨?_, ?_, ?_, ?_, ?_⟩
  · rcases (w p.id).stack.stack.eq_nil_or_concat with h | ⟨l, v, h⟩
    · rw [Pool.get_empty create p w h]; rfl
    · rw [Pool.get_spare create p w l v (by simpa using h)]; rfl
  · rcases (w p.id).stack.stack.eq_nil_or_concat with h | ⟨l, v, h⟩
    · rw [Pool.get_ref_empty create p w h]; rfl
    · rw [Pool.get_ref_spare create p w l v (by simpa using h)]; rfl
  · intro g hgd
    obtain ⟨v, hv⟩ := Option.isSome_iff_exists.mp hgd
    exact ⟨hgd, hgd, fun w2 => by simp [Guard.drop, hv]⟩
  · intro r hrd
    obtain ⟨v, hv⟩ := Option.isSome_iff_exists.mp hrd
    exact ⟨hrd, hrd, fun w2 => by simp [RefGuard.drop, hv]⟩
  · intro ops g hgmem
    exact ((poolInv_run ops).2.2 g hgmem).2

/-- Witness for C10 at concrete guards and the one-acquisition trace. -/
theorem live_guard_slot_is_some_witness :
    (Pool.get dummyCreate p0 initHeap).1.data.isSome ∧
    ((Guard.deref { pool := p0, data := some 3 } : Option Nat).isSome ∧
      (Guard.deref_mut { pool := p0, data := some 3 } : Option Nat).isSome ∧
      ∀ w2 : Heap Nat Nat, (Guard.drop { pool := p0, data := some 3 } w2).isSome) ∧
    ((RefGuard.deref { pool := p0, data := some 4 } : Option Nat).isSome ∧
      (RefGuard.deref_mut { pool := p0, data := some 4 } : Option Nat).isSome ∧
      ∀ w2 : Heap Nat Nat, (RefGuard.drop { pool := p0, data := some 4 } w2).isSome) ∧
    ({ pool := p0.clone, data := some 0 : Guard Nat }).data.isSome :=
  ⟨(live_guard_slot_is_some dummyCreate p0 initHeap).1,
   (live_guard_slot_is_some dummyCreate p0 initHeap).2.2.1
     { pool := p0, data := some 3 } rfl,
   (live_guard_slot_is_some dummyCreate p0 initHeap).2.2.2.1
     { pool := p0, data := some 4 } rfl,
   (live_guard_slot_is_some dummyCreate p0 initHeap).2.2.2.2
     [Op.acquire] { pool := p0.clone, data := some 0 } (by decide)⟩

theorem round_from_empty (s : SysState) (h : s.heap p0.id = _Pool.new 0) :
    (step (step s Op.acquire) (Op.release 0)).heap p0.id = roundState ∧
    (step (step s Op.acquire) (Op.release 0)).live = s.live := by
  have hempty : (s.heap p0.id).stack.stack = [] := by rw [h]; rfl
  have hget := Pool.get_empty dummyCreate p0 s.heap hempty
  have hc : (s.heap p0.id).createState = 0 := by rw [h]; rfl
  constructor
  · simp only [step, hget]
    simp [Pool.put, Stack.push, Heap.update, Guard.drop, hc, dummyCreate,
      SpinLock.lock, SpinLock.unlock, roundState, SpinLock.new, Pool.clone, p0]
    exact hc
  · simp only [step, hget]
    simp [Guard.drop]

theorem round_from_roundState (s : SysState) (h : s.heap p0.id = roundState) :
    (step (step s Op.acquire) (Op.release 0)).heap p0.id = roundState ∧
    (step (step s Op.acquire) (Op.release 0)).live = s.live := by
  have hspare : (s.heap p0.id).stack.stack = [] ++ [0] := by rw [h]; rfl
  have hget := Pool.get_spare dummyCreate p0 s.heap [] 0 hspare
  have hc : (s.heap p0.id).createState = 1 := by rw [h]; rfl
  constructor
  · simp only [step, hget]
    simp [Pool.put, Stack.push, Heap.update, Guard.drop, hc,
      SpinLock.lock, SpinLock.unlock, roundState, SpinLock.new, Pool.clone, p0]
    exact hc
  · simp only [step, hget]
    simp [Guard.drop]

theorem altOps_cons (n : Nat) :
    altOps (n + 1) = Op.acquire :: Op.release 0 :: altOps n := by
  simp [altOps, List.replicate_succ]

theorem altOps_foldl_fix (m : Nat) :
    ∀ s : SysState, s.heap p0.id = roundState →
      (((altOps m).foldl step s).heap p0.id = roundState ∧
       ((altOps m).foldl step s).live = s.live) := by
  induction m with
  | zero => exact fun s hs => ⟨hs, rfl⟩
  | succ k ih =>
    intro s hs
    rw [altOps_cons, List.foldl_cons, List.foldl_cons]
    obtain ⟨h1, h2⟩ := round_from_roundState s hs
    obtain ⟨h3, h4⟩ := ih _ h1
    exact ⟨h3, h4.trans h2⟩

/-- Claim C5: for every single-thread sequence of acquire/release rounds in
which each acquired guard is released before the next acquire, the
constructor is invoked exactly once over the whole sequence: after `n ≥ 1`
rounds the closure's invocation counter is exactly 1.  More generally, an
acquire that finds a spare value (storage covers the demand) never invokes
the constructor: the closure state is unchanged. -/
theorem constructor_called_once (n : Nat) (hn : 1 ≤ n) :
    ((run (altOps n)).heap p0.id).createState = 1 ∧
    (∀ (σ T : Type) (create : σ → T × σ) (p : Pool) (w : Heap σ T)
        (l : List T) (v : T), (w p.id).stack.stack = l ++ [v] →
      ((Pool.get create p w).2 p.id).createState = (w p.id).createState) := by
  constructor
  · obtain ⟨m, rfl⟩ : ∃ m, n = m + 1 := ⟨n - 1, by omega⟩
    rw [run, altOps_cons, List.foldl_cons, List.foldl_cons]
    obtain ⟨h1, _⟩ := round_from_empty initState rfl
    exact ((altOps_foldl_fix m _ h1).1) ▸ rfl
  · intro σ T create p w l v h
    rw [Pool.get_spare create p w l v h]
    simp [Heap.update_self]

/-- Witness for C5 at one round, and one spare-reusing acquire. -/
theorem constructor_called_once_witness :
    ((run (altOps 1)).heap p0.id).createState = 1 ∧
    ((Pool.get dummyCreate p0 oneHeap).2 p0.id).createState
      = (oneHeap p0.id).createState :=
  ⟨(constructor_called_once 1 (by decide)).1,
   (constructor_called_once 1 (by decide)).2 Nat Nat dummyCreate p0 oneHeap [] 5 rfl⟩

/-- Claim C8 (spec-modelled: the thread-affine pool is not under src/):
the first thread to access a fresh pool wins the one-time compare-and-swap
of the owner slot from 0 to its thread identity and is thereafter served the
slot's pre-built value directly with the pool untouched, while every other
thread is served through the per-thread fallback mapping: its first access
constructs and registers a boxed value under its identity, and every later
access returns that same stable value with the pool untouched — a stable
reference, not a take-and-return handle. -/
theorem affine_owner_and_fallback {σ T : Type} (create : σ → T × σ)
    (ap : AffinePool σ T) (tid u : Nat) (htid : tid ≠ 0) (hun : ap.owner = 0) :
    AffinePool.get create tid ap = (ap.ownerVal, { ap with owner := tid }) ∧
    (∀ ap2 : AffinePool σ T, ap2.owner = tid →
      AffinePool.get create tid ap2 = (ap2.ownerVal, ap2)) ∧
    (∀ ap2 : AffinePool σ T, ap2.owner = tid → u ≠ tid →
      ap2.fallback.lookup u = none →
      AffinePool.get create u ap2 =
        ((create ap2.createState).1,
         { ap2 with
            fallback := (u, (create ap2.createState).1) :: ap2.fallback,
            createState := (create ap2.createState).2 })) ∧
    (∀ (ap2 : AffinePool σ T) (v : T), ap2.owner = tid → u ≠ tid →
      ap2.fallback.lookup u = some v →
      AffinePool.get create u ap2 = (v, ap2)) := by
  refine ⟨?_, ?_, ?_, ?_⟩
  · simp [AffinePool.get, hun]
  · intro ap2 h2
    simp [AffinePool.get, h2, htid]
  · intro ap2 h2 hu hnone
    simp [AffinePool.get, h2, htid, Ne.symm hu, hnone]
  · intro ap2 v h2 hu hsome
    simp [AffinePool.get, h2, htid, Ne.symm hu, hsome]

/-- Witness for C8: thread 1 claims the fresh pool, thread 2 takes the
fallback path. -/
theorem affine_owner_and_fallback_witness :
    (AffinePool.get dummyCreate 1 { owner := 0, ownerVal := 42, fallback := [], createState := 0 }
      = (42, { owner := 1, ownerVal := 42, fallback := [], createState := 0 })) ∧
    (AffinePool.get dummyCreate 1 { owner := 1, ownerVal := 42, fallback := [], createState := 0 }
      = (42, { owner := 1, ownerVal := 42, fallback := [], createState := 0 })) ∧
    (AffinePool.get dummyCreate 2 { owner := 1, ownerVal := 42, fallback := [], createState := 0 }
      = (0, { owner := 1, ownerVal := 42, fallback := [(2, 0)], createState := 1 })) ∧
    (AffinePool.get dummyCreate 2 { owner := 1, ownerVal := 42, fallback := [(2, 7)], createState := 1 }
      = (7, { owner := 1, ownerVal := 42, fallback := [(2, 7)], createState := 1 })) := by
  have h := affine_owner_and_fallback dummyCreate
    { owner := 0, ownerVal := 42, fallback := [], createState := 0 } 1 2 (by decide) rfl
  exact ⟨h.1, h.2.1 _ rfl, h.2.2.1 _ rfl (by decide) rfl, h.2.2.2 _ 7 rfl (by decide) rfl⟩
